import Mathlib

/-!
Verification of the CAtomic unique-identifier counter
(Sources/CAtomic/CAtomic.c of swift-markdown).

The C module holds a single process-wide `_Atomic uint64_t` counter,
statically initialized to 0, with two entry points:

  uint64_t _cmarkup_current_unique_id(void)        -- plain read
  uint64_t _cmarkup_increment_and_get_unique_id()  -- pre-increment, return new value

We embed the program state as the value of that one global (a natural
number kept below 2^64), and each entry point as a pure function from
states to a returned value paired with the post-state.  Unsigned 64-bit
overflow is the C-defined wraparound, written explicitly as `% 2^64`.
Sequential executions are lists of calls run by `runTrace`; since both
entry points are single atomic steps, a concurrent execution of one-call
threads is exactly a sequential run in the schedule order.
-/

/-- The modulus of `uint64_t` arithmetic: 2^64. -/
def UINT64_MOD : Nat := 2 ^ 64

/-- The whole mutable state of the program: the single static global
`_Atomic uint64_t _cmarkup_unique_id`. -/
structure CounterState where
  _cmarkup_unique_id : Nat
deriving DecidableEq, Repr

/-- The state at process start: `static _Atomic uint64_t _cmarkup_unique_id = 0;`. -/
def initState : CounterState := ⟨0⟩

/-- Embeds `uint64_t _cmarkup_current_unique_id(void) { return _cmarkup_unique_id; }`:
an atomic load, returning the counter and leaving the state as it was. -/
def _cmarkup_current_unique_id (s : CounterState) : Nat × CounterState :=
  (s._cmarkup_unique_id, s)

/-- Embeds `uint64_t _cmarkup_increment_and_get_unique_id(void) { return ++_cmarkup_unique_id; }`:
an atomic fetch-add of 1 with uint64 wraparound, returning the new (post-increment) value. -/
def _cmarkup_increment_and_get_unique_id (s : CounterState) : Nat × CounterState :=
  let v := (s._cmarkup_unique_id + 1) % UINT64_MOD
  (v, ⟨v⟩)

/-- The two entry points a caller can invoke. -/
inductive Op where
  | current : Op
  | incrementAndGet : Op
deriving DecidableEq, Repr

/-- Run one call in a state, giving the returned value and the post-state. -/
def runOp : Op → CounterState → Nat × CounterState
  | Op.current, s => _cmarkup_current_unique_id s
  | Op.incrementAndGet, s => _cmarkup_increment_and_get_unique_id s

/-- Run a sequence of calls, collecting the returned values in order and the final state. -/
def runTrace : List Op → CounterState → List Nat × CounterState
  | [], s => ([], s)
  | op :: rest, s =>
    let r := runOp op s
    let rs := runTrace rest r.2
    (r.1 :: rs.1, rs.2)

/-- Holds when no call of the sequence wraps the counter past 2^64 − 1:
every `incrementAndGet` executes in a state whose counter is not 2^64 − 1. -/
def wrapFree : List Op → CounterState → Bool
  | [], _ => true
  | Op.current :: rest, s => wrapFree rest s
  | Op.incrementAndGet :: rest, s =>
    (s._cmarkup_unique_id != UINT64_MOD - 1) &&
      wrapFree rest (_cmarkup_increment_and_get_unique_id s).2

/-- A convenient closed form of the modulus, letting `omega` reason about it. -/
theorem UINT64_MOD_eq : UINT64_MOD = 18446744073709551616 := by
  norm_num [UINT64_MOD]

/-- Along any run from a valid state, the final counter and every returned value
stay below 2^64. -/
theorem runTrace_values_lt (ops : List Op) (s : CounterState)
    (hs : s._cmarkup_unique_id < UINT64_MOD) :
    (runTrace ops s).2._cmarkup_unique_id < UINT64_MOD ∧
    ∀ v ∈ (runTrace ops s).1, v < UINT64_MOD := by
  induction ops generalizing s with
  | nil => exact ⟨hs, by simp [runTrace]⟩
  | cons op rest ih =>
    cases op with
    | current =>
      obtain ⟨h1, h2⟩ := ih s hs
      refine ⟨h1, ?_⟩
      intro v hv
      simp only [runTrace, runOp, _cmarkup_current_unique_id, List.mem_cons] at hv
      rcases hv with hv | hv
      · exact hv ▸ hs
      · exact h2 v hv
    | incrementAndGet =>
      have hlt : (s._cmarkup_unique_id + 1) % UINT64_MOD < UINT64_MOD :=
        Nat.mod_lt _ (by decide)
      obtain ⟨h1, h2⟩ := ih ⟨(s._cmarkup_unique_id + 1) % UINT64_MOD⟩ hlt
      refine ⟨h1, ?_⟩
      intro v hv
      simp only [runTrace, runOp, _cmarkup_increment_and_get_unique_id,
        List.mem_cons] at hv
      rcases hv with hv | hv
      · exact hv ▸ hlt
      · exact h2 v hv

/-- After K increments from counter value a < 2^64, the counter holds
(a + K) mod 2^64. -/
theorem state_replicate_inc (K a : Nat) (ha : a < UINT64_MOD) :
    (runTrace (List.replicate K Op.incrementAndGet) ⟨a⟩).2 =
      ⟨(a + K) % UINT64_MOD⟩ := by
  induction K generalizing a with
  | zero => simp [runTrace, Nat.mod_eq_of_lt ha]
  | succ K ih =>
    rw [List.replicate_succ]
    simp only [runTrace, runOp, _cmarkup_increment_and_get_unique_id]
    rw [ih ((a + 1) % UINT64_MOD) (Nat.mod_lt _ (by decide))]
    congr 1
    rw [Nat.mod_add_mod]
    congr 1
    omega

/-- When a + K stays below 2^64 (no wraparound), the K increments from counter
value a return a+1, a+2, ..., a+K in order. -/
theorem returns_replicate_inc_of_lt (K a : Nat) (h : a + K < UINT64_MOD) :
    (runTrace (List.replicate K Op.incrementAndGet) ⟨a⟩).1 =
      (List.range K).map (fun i => a + i + 1) := by
  induction K generalizing a with
  | zero => simp [runTrace]
  | succ K ih =>
    rw [List.replicate_succ]
    simp only [runTrace, runOp, _cmarkup_increment_and_get_unique_id]
    have ha1 : (a + 1) % UINT64_MOD = a + 1 := Nat.mod_eq_of_lt (by omega)
    rw [ha1, ih (a + 1) (by omega), List.range_succ_eq_map]
    simp only [List.map_cons, List.map_map]
    have hfun : ((fun i => a + i + 1) ∘ Nat.succ) = fun i => a + 1 + i + 1 := by
      funext i
      show a + (i + 1) + 1 = a + 1 + i + 1
      omega
    rw [hfun]

/-- In a wrap-free run from a valid state the counter never decreases, and every
returned value is at most the final counter. -/
theorem wrapFree_run_le (ops : List Op) (s : CounterState)
    (hs : s._cmarkup_unique_id < UINT64_MOD) (h : wrapFree ops s = true) :
    s._cmarkup_unique_id ≤ (runTrace ops s).2._cmarkup_unique_id ∧
    (runTrace ops s).2._cmarkup_unique_id < UINT64_MOD ∧
    ∀ v ∈ (runTrace ops s).1, v ≤ (runTrace ops s).2._cmarkup_unique_id := by
  induction ops generalizing s with
  | nil => exact ⟨le_refl _, hs, by simp [runTrace]⟩
  | cons op rest ih =>
    cases op with
    | current =>
      have h' : wrapFree rest s = true := h
      obtain ⟨h1, h2, h3⟩ := ih s hs h'
      refine ⟨h1, h2, ?_⟩
      intro v hv
      simp only [runTrace, runOp, _cmarkup_current_unique_id, List.mem_cons] at hv
      rcases hv with hv | hv
      · exact hv ▸ h1
      · exact h3 v hv
    | incrementAndGet =>
      simp only [wrapFree, Bool.and_eq_true, bne_iff_ne, ne_eq] at h
      obtain ⟨hne, h'⟩ := h
      have hstep : (s._cmarkup_unique_id + 1) % UINT64_MOD =
          s._cmarkup_unique_id + 1 := by
        have := UINT64_MOD_eq
        exact Nat.mod_eq_of_lt (by omega)
      have hs' : ((_cmarkup_increment_and_get_unique_id s).2)._cmarkup_unique_id <
          UINT64_MOD := by
        simp only [_cmarkup_increment_and_get_unique_id]
        exact Nat.mod_lt _ (by decide)
      obtain ⟨h1, h2, h3⟩ := ih (_cmarkup_increment_and_get_unique_id s).2 hs' h'
      simp only [_cmarkup_increment_and_get_unique_id, hstep] at h1 h2 h3
      refine ⟨?_, ?_, ?_⟩
      · simp only [runTrace, runOp, _cmarkup_increment_and_get_unique_id, hstep]
        omega
      · simp only [runTrace, runOp, _cmarkup_increment_and_get_unique_id, hstep]
        exact h2
      · intro v hv
        simp only [runTrace, runOp, _cmarkup_increment_and_get_unique_id, hstep,
          List.mem_cons] at hv ⊢
        rcases hv with hv | hv
        · omega
        · exact h3 v hv

/-- C1 (amended): `incrementAndGet` in state s sets the counter to
(s + 1) mod 2^64 and returns that post-increment value; consequently, for two
sequential calls, the second returned value is one greater than the first
modulo 2^64. -/
theorem incrementAndGet_post (s : CounterState) :
    _cmarkup_increment_and_get_unique_id s =
      ((s._cmarkup_unique_id + 1) % UINT64_MOD,
        ⟨(s._cmarkup_unique_id + 1) % UINT64_MOD⟩) ∧
    (_cmarkup_increment_and_get_unique_id
        (_cmarkup_increment_and_get_unique_id s).2).1 =
      ((_cmarkup_increment_and_get_unique_id s).1 + 1) % UINT64_MOD :=
  ⟨rfl, rfl⟩

/-- C1 (counterexample): starting from counter 2^64 − 2 the first call returns
2^64 − 1 and the second returns 0, which is not one greater than the first. -/
theorem incrementAndGet_succ_fails_at_wrap :
    (_cmarkup_increment_and_get_unique_id
        (_cmarkup_increment_and_get_unique_id ⟨UINT64_MOD - 2⟩).2).1 ≠
      (_cmarkup_increment_and_get_unique_id ⟨UINT64_MOD - 2⟩).1 + 1 := by
  decide

/-- C2: on a fresh process start the counter is 0, `current()` returns 0 before any
increment, and the first `incrementAndGet()` returns 1. -/
theorem fresh_start_values :
    initState._cmarkup_unique_id = 0 ∧
    (_cmarkup_current_unique_id initState).1 = 0 ∧
    (_cmarkup_increment_and_get_unique_id initState).1 = 1 := by
  refine ⟨rfl, rfl, ?_⟩
  decide

/-- C5: when the counter holds 2^64 − 1, the next `incrementAndGet` wraps the
counter to 0 and returns 0; the operation still returns normally (it is a total
function into values, with no error outcome). -/
theorem incrementAndGet_wraps_at_max :
    _cmarkup_increment_and_get_unique_id ⟨UINT64_MOD - 1⟩ = (0, ⟨0⟩) := by
  decide

/-- C6: `current()` returns the present counter value and leaves the state, the
only program state, unchanged. -/
theorem current_reads_without_modifying (s : CounterState) :
    (_cmarkup_current_unique_id s).1 = s._cmarkup_unique_id ∧
    (_cmarkup_current_unique_id s).2 = s :=
  ⟨rfl, rfl⟩

/-- C7: two successive calls to `current()` with no intervening increment return
the same value both times. -/
theorem current_idempotent (s : CounterState) :
    (_cmarkup_current_unique_id (_cmarkup_current_unique_id s).2).1 =
      (_cmarkup_current_unique_id s).1 :=
  rfl

/-- C3 (amended): after K < 2^64 calls to `incrementAndGet` from a fresh process
start, with no interleaved concurrent calls, `current()` returns exactly K. -/
theorem current_after_K_increments (K : Nat) (hK : K < UINT64_MOD) :
    (_cmarkup_current_unique_id
        (runTrace (List.replicate K Op.incrementAndGet) initState).2).1 = K := by
  have h0 : initState = (⟨0⟩ : CounterState) := rfl
  rw [h0, state_replicate_inc K 0 (by decide)]
  show (0 + K) % UINT64_MOD = K
  rw [Nat.zero_add, Nat.mod_eq_of_lt hK]

/-- C3 witness at K = 3: after three increments from a fresh start, `current()`
returns 3. -/
theorem current_after_K_increments_witness :
    3 < UINT64_MOD ∧
    (_cmarkup_current_unique_id
        (runTrace (List.replicate 3 Op.incrementAndGet) initState).2).1 = 3 :=
  ⟨by decide, current_after_K_increments 3 (by decide)⟩

/-- C3 (counterexample): after exactly 2^64 increments from a fresh start the
counter has wrapped, so `current()` returns 0, not 2^64. -/
theorem current_after_K_increments_fails_at_wrap :
    (_cmarkup_current_unique_id
        (runTrace (List.replicate UINT64_MOD Op.incrementAndGet) initState).2).1 ≠
      UINT64_MOD := by
  have h0 : initState = (⟨0⟩ : CounterState) := rfl
  rw [h0, state_replicate_inc UINT64_MOD 0 (by decide)]
  show (0 + UINT64_MOD) % UINT64_MOD ≠ UINT64_MOD
  rw [Nat.zero_add, Nat.mod_self]
  have := UINT64_MOD_eq
  omega

/-- C4: in any wrap-free run from process start, the next `incrementAndGet`
call (itself not wrapping) returns a value strictly greater than every value
previously returned by either operation. -/
theorem incrementAndGet_strictly_exceeds_past (ops : List Op)
    (h : wrapFree ops initState = true)
    (hw : (runTrace ops initState).2._cmarkup_unique_id ≠ UINT64_MOD - 1) :
    ∀ v ∈ (runTrace ops initState).1,
      v < (_cmarkup_increment_and_get_unique_id (runTrace ops initState).2).1 := by
  obtain ⟨h1, h2, h3⟩ := wrapFree_run_le ops initState (by decide) h
  intro v hv
  have hM := UINT64_MOD_eq
  have hstep : ((runTrace ops initState).2._cmarkup_unique_id + 1) % UINT64_MOD =
      (runTrace ops initState).2._cmarkup_unique_id + 1 :=
    Nat.mod_eq_of_lt (by omega)
  show v < ((runTrace ops initState).2._cmarkup_unique_id + 1) % UINT64_MOD
  rw [hstep]
  exact Nat.lt_succ_of_le (h3 v hv)

/-- C4 witness: after the run [incrementAndGet, current] (wrap-free, final
counter 1 ≠ 2^64 − 1), the next increment returns 2, strictly above the
previously returned value 1. -/
theorem incrementAndGet_strictly_exceeds_past_witness :
    wrapFree [Op.incrementAndGet, Op.current] initState = true ∧
    (runTrace [Op.incrementAndGet, Op.current] initState).2._cmarkup_unique_id ≠
      UINT64_MOD - 1 ∧
    1 < (_cmarkup_increment_and_get_unique_id
        (runTrace [Op.incrementAndGet, Op.current] initState).2).1 :=
  ⟨by decide, by decide,
    incrementAndGet_strictly_exceeds_past [Op.incrementAndGet, Op.current]
      (by decide) (by decide) 1 (by decide)⟩

/-- C8: neither operation can fail: both are total functions of the state, and
from any valid state (counter below 2^64) both return a valid uint64 value and
leave a valid uint64 counter; there is no error branch or error code. -/
theorem operations_total_in_uint64_range (s : CounterState)
    (hs : s._cmarkup_unique_id < UINT64_MOD) :
    (_cmarkup_current_unique_id s).1 < UINT64_MOD ∧
    (_cmarkup_current_unique_id s).2._cmarkup_unique_id < UINT64_MOD ∧
    (_cmarkup_increment_and_get_unique_id s).1 < UINT64_MOD ∧
    (_cmarkup_increment_and_get_unique_id s).2._cmarkup_unique_id < UINT64_MOD :=
  ⟨hs, hs, Nat.mod_lt _ (by decide), Nat.mod_lt _ (by decide)⟩

/-- C8 witness at the state holding 7. -/
theorem operations_total_in_uint64_range_witness :
    (⟨7⟩ : CounterState)._cmarkup_unique_id < UINT64_MOD ∧
    ((_cmarkup_current_unique_id ⟨7⟩).1 < UINT64_MOD ∧
     (_cmarkup_current_unique_id ⟨7⟩).2._cmarkup_unique_id < UINT64_MOD ∧
     (_cmarkup_increment_and_get_unique_id ⟨7⟩).1 < UINT64_MOD ∧
     (_cmarkup_increment_and_get_unique_id ⟨7⟩).2._cmarkup_unique_id < UINT64_MOD) :=
  ⟨by decide, operations_total_in_uint64_range ⟨7⟩ (by decide)⟩

/-- C9 (amended): for N < 2^64 one-call threads scheduled in any order (any
permutation of the N thread ids), the N returned values are pairwise distinct
and are exactly the values v with 1 ≤ v ≤ N. -/
theorem concurrent_unique_ids (N : Nat) (hN : N < UINT64_MOD)
    (sched : List Nat) (hp : List.Perm sched (List.range N)) :
    (runTrace (sched.map fun _ => Op.incrementAndGet) initState).1.Nodup ∧
    ∀ v, v ∈ (runTrace (sched.map fun _ => Op.incrementAndGet) initState).1 ↔
      1 ≤ v ∧ v ≤ N := by
  have hlen : sched.length = N := by
    rw [hp.length_eq, List.length_range]
  have hmap : sched.map (fun _ => Op.incrementAndGet) =
      List.replicate N Op.incrementAndGet := by
    rw [List.eq_replicate_iff]
    refine ⟨by simp [hlen], ?_⟩
    intro b hb
    rcases List.mem_map.mp hb with ⟨x, _, hx⟩
    exact hx.symm
  have h0 : initState = (⟨0⟩ : CounterState) := rfl
  rw [hmap, h0, returns_replicate_inc_of_lt N 0 (by simpa using hN)]
  constructor
  · exact List.Nodup.map (fun a b hab => by omega) (List.nodup_range N)
  · intro v
    simp only [List.mem_map, List.mem_range]
    constructor
    · rintro ⟨i, hi, rfl⟩
      omega
    · rintro ⟨h1v, hvN⟩
      exact ⟨v - 1, by omega, by omega⟩

/-- C9 witness: two threads scheduled as [1, 0] produce distinct values, and 2
is among the returned values (1 ≤ 2 ≤ 2). -/
theorem concurrent_unique_ids_witness :
    2 < UINT64_MOD ∧ List.Perm [1, 0] (List.range 2) ∧
    ((runTrace ([1, 0].map fun _ => Op.incrementAndGet) initState).1.Nodup ∧
     (2 ∈ (runTrace ([1, 0].map fun _ => Op.incrementAndGet) initState).1 ↔
       1 ≤ 2 ∧ 2 ≤ 2)) :=
  ⟨by decide, by decide,
    (concurrent_unique_ids 2 (by decide) [1, 0] (by decide)).1,
    (concurrent_unique_ids 2 (by decide) [1, 0] (by decide)).2 2⟩

/-- C9 (counterexample): with N = 2^64 threads the claimed value set
{1, ..., N} is not produced: every returned value is below 2^64, so N itself
never occurs among the returns. -/
theorem concurrent_unique_ids_fails_at_wrap :
    ¬ (∀ v, v ∈ (runTrace ((List.range UINT64_MOD).map fun _ =>
          Op.incrementAndGet) initState).1 ↔ 1 ≤ v ∧ v ≤ UINT64_MOD) := by
  intro hall
  have hM := UINT64_MOD_eq
  have hmem := (hall UINT64_MOD).mpr ⟨by omega, le_refl _⟩
  have hlt := (runTrace_values_lt ((List.range UINT64_MOD).map fun _ =>
      Op.incrementAndGet) initState (by decide)).2 UINT64_MOD hmem
  exact Nat.lt_irrefl _ hlt

/-- C10: both operations are deterministic functions of the counter state
alone: equal starting states give equal returned values and equal final
states. -/
theorem operations_deterministic (s₁ s₂ : CounterState) (h : s₁ = s₂) :
    _cmarkup_current_unique_id s₁ = _cmarkup_current_unique_id s₂ ∧
    _cmarkup_increment_and_get_unique_id s₁ =
      _cmarkup_increment_and_get_unique_id s₂ := by
  subst h
  exact ⟨rfl, rfl⟩

/-- C10 witness at the state holding 5. -/
theorem operations_deterministic_witness :
    (⟨5⟩ : CounterState) = ⟨5⟩ ∧
    (_cmarkup_current_unique_id ⟨5⟩ = _cmarkup_current_unique_id ⟨5⟩ ∧
     _cmarkup_increment_and_get_unique_id ⟨5⟩ =
       _cmarkup_increment_and_get_unique_id ⟨5⟩) :=
  ⟨rfl, operations_deterministic ⟨5⟩ ⟨5⟩ rfl⟩
